import Mathlib

/-!
Verification of the icebin/glint2 coupling library against its
natural-language specification.

The development shallowly embeds the source files:

* `src/unnamed/part_000`  — `giss::CoupledField`, `giss::CouplingContract`
* `src/slib/glint2/contracts/modele_pism.cpp` — `IceModel_PISM::setup_contracts_modele`
* `src/slib/glint2/MatrixMaker.cpp` — `MatrixMaker::compute_fhc`, `MatrixMaker::hp_to_hc`
* `src/modele/make_merged_topoo.cpp` — error handling of `main`

C++ `double` values are embedded as `ℚ`; where an IEEE division by zero
matters, division is embedded as `Option ℚ` with `none` standing for the
non-finite (NaN/Inf) result.  Components of the repository whose
definitions are not under `src/` (only declarations or call sites are)
are modelled from the spec and carry a doc comment saying so.
-/

namespace Icebin

/-- Embeds `giss::CoupledField` (src/unnamed/part_000, lines 12-37):
an immutable value object with name, default value, units, flags and
description. -/
structure CoupledField where
  name : String
  default_value : ℚ
  units : String
  flags : Nat
  description : String
deriving DecidableEq

/-- Embeds the data members of `giss::CouplingContract`
(src/unnamed/part_000, lines 45-53): the ordered field vector
`_ix_to_field`, the map `_name_to_ix` (modelled as an association list),
`_size_nounit` and `_unit_ix`.  The default constructor (line 53) sets
`_size_nounit = 0` and `_unit_ix = 1`. -/
structure CouplingContract where
  ix_to_field : List CoupledField
  name_to_ix : List (String × Int)
  size_nounit_f : Int
  unit_ix_f : Int
deriving DecidableEq

/-- The freshly default-constructed contract: `CouplingContract() :
_size_nounit(0), _unit_ix(1) {}` with both containers empty. -/
def freshContract : CouplingContract :=
  { ix_to_field := [], name_to_ix := [], size_nounit_f := 0, unit_ix_f := 1 }

/-- Lookup in the embedded `std::map<std::string,int>`. -/
def lookupName (m : List (String × Int)) (name : String) : Option Int :=
  match m with
  | [] => none
  | (k, v) :: rest => if k = name then some v else lookupName rest name

/-- Result of `CouplingContract::index`: either the fatal termination path
through `giss::exit(1)` (carrying the diagnostic printed to stderr just
before), or a returned integer. -/
inductive IndexResult where
  | fatal (msg : String)
  | ret (ix : Int)
deriving DecidableEq

/-- Embeds `CouplingContract::index(name, throw_exception)`
(src/unnamed/part_000, lines 78-87): on a miss, strict mode prints a
diagnostic naming the missing field and calls `giss::exit(1)`; non-strict
mode returns -1; on a hit the stored index is returned in both modes. -/
def CouplingContract.index (c : CouplingContract) (name : String)
    (throw_exception : Bool := true) : IndexResult :=
  match lookupName c.name_to_ix name with
  | none =>
      if throw_exception then
        .fatal ("CouplingContract::index(): name '" ++ name ++ "' not found")
      else .ret (-1)
  | some ix => .ret ix

/-- Embeds `size_withunit()` (src/unnamed/part_000, line 72):
`_ix_to_field.size()`. -/
def CouplingContract.size_withunit (c : CouplingContract) : Int :=
  c.ix_to_field.length

/-- Embeds `size_nounit()` (src/unnamed/part_000, line 74):
returns `_size_nounit`. -/
def CouplingContract.size_nounit (c : CouplingContract) : Int :=
  c.size_nounit_f

/-- Modelled from the spec: the body of
`CouplingContract::add_field(CoupledField&&)` is not under src/ (it is
only declared at src/unnamed/part_000, line 60).  Per spec §3 and §4.1 it
appends the field at the next index, records the name→index mapping,
fails fatally (`none`) when the name is already present, counts fields
other than the implicit "unit" pseudo-field in `_size_nounit`, and
records the index of the "unit" pseudo-field in `_unit_ix`. -/
def CouplingContract.add_field (c : CouplingContract) (cf : CoupledField) :
    Option CouplingContract :=
  match lookupName c.name_to_ix cf.name with
  | some _ => none
  | none =>
      let ix : Int := c.ix_to_field.length
      some { ix_to_field := c.ix_to_field ++ [cf]
             name_to_ix := c.name_to_ix ++ [(cf.name, ix)]
             size_nounit_f :=
               if cf.name = "unit" then c.size_nounit_f else c.size_nounit_f + 1
             unit_ix_f := if cf.name = "unit" then ix else c.unit_ix_f }

/-- A sequence of `add_field` calls, failing as soon as one fails. -/
def addFields (c : CouplingContract) : List CoupledField → Option CouplingContract
  | [] => some c
  | cf :: rest =>
    match c.add_field cf with
    | none => none
    | some c' => addFields c' rest

/-- Helper: build a `CoupledField` carrying just a name (the other
metadata is irrelevant to the size bookkeeping). -/
def namedField (n : String) : CoupledField :=
  { name := n, default_value := 0, units := "1", flags := 0, description := "" }

/-! ### The two single-argument `add_field` overloads (claim C10)

`src/unnamed/part_000`, lines 60-65 declares
`int add_field(CoupledField &&cf);` and defines

```
int add_field(CoupledField const &cf) {
    CoupledField dup(cf);
    return add_field(std::move(cf));
}
```

The const-lvalue overload applies `std::move` to its const parameter
`cf`, not to the non-const local copy `dup`.  We embed just enough of
C++ reference binding to settle which overload that inner call selects.
-/

/-- Value category of a C++ expression: lvalue or rvalue (xvalue). -/
inductive ValueCat where
  | lv
  | rv
deriving DecidableEq

/-- The type of a reference-bound argument: cv-qualification plus value
category. -/
structure CppArg where
  isConst : Bool
  cat : ValueCat
deriving DecidableEq

/-- The two single-`CoupledField` overloads of
`CouplingContract::add_field`. -/
inductive AddFieldOverload where
  | constLRef
  | rvalueRef
deriving DecidableEq

/-- `std::move(e)`: casts the expression to an xvalue, keeping its
cv-qualification (`std::move` on a `CoupledField const&` yields a
`CoupledField const&&`). -/
def stdMove (a : CppArg) : CppArg := { a with cat := .rv }

/-- C++ reference binding and overload resolution for this candidate
set ([dcl.init.ref], [over.match.best]): `CoupledField&&` is viable only
for a non-const rvalue and is preferred when viable; `CoupledField
const&` binds to everything else.  (A const rvalue cannot bind to a
non-const rvalue reference, so it falls back to the const-lvalue-ref
overload.) -/
def resolveAddField (a : CppArg) : AddFieldOverload :=
  if a.cat = ValueCat.rv && !a.isConst then .rvalueRef else .constLRef

/-- The argument expression the const-lvalue overload passes on:
`std::move(cf)` where `cf : CoupledField const&` is a const lvalue
(the non-const local copy `dup` is constructed but never passed). -/
def constOverloadCallArg : CppArg := stdMove { isConst := true, cat := .lv }

/-- One call step: the overload the body of the given overload invokes
next, or `none` when the body makes no further single-`CoupledField`
`add_field` call (the rvalue-reference overload's body is external and
does not re-enter these overloads). -/
def addFieldCallStep : AddFieldOverload → Option AddFieldOverload
  | .constLRef => some (resolveAddField constOverloadCallArg)
  | .rvalueRef => none

/-- Call chain starting from a call to the const-lvalue-ref overload. -/
def addFieldTrace : Nat → Option AddFieldOverload
  | 0 => some .constLRef
  | n + 1 => (addFieldTrace n).bind addFieldCallStep

/-! ### VarTransformer (spec-modelled) and the ModelE↔PISM contract setup

The transformer class itself (`giss::VarTransformer` / its icebin-era
successor) is not under src/: src only declares the member array
`var_transformer` (src/unnamed/part_001, line 51) and calls the class
from `src/slib/glint2/contracts/modele_pism.cpp`.  It is therefore
modelled from the spec (§3, §4.2).  The recipes themselves are embedded
from `modele_pism.cpp`, which is under src/ and is the authority.
-/

/-- Modelled from the spec: `VarTransformer` (its header/implementation
are missing from src/).  Spec §3/§4.2: three named axes — INPUTS (a
source contract), OUTPUTS (a destination contract), SCALARS — and a
coefficient tensor over (OUTPUTS, INPUTS+unit, SCALARS+unit), zero-filled
by `allocate()`.  Axes are embedded as the contracts' ordered name
lists; the tensor as a function on names. -/
structure VarTransformer where
  inputs : List String
  outputs : List String
  scalars : List String
  coeff : String → String → String → ℚ

/-- Modelled from the spec: `set_names` on the three axes followed by
`allocate()`, which sizes the tensor and zero-fills it. -/
def VarTransformer.allocate (ins outs scas : List String) : VarTransformer :=
  { inputs := ins, outputs := outs, scalars := scas, coeff := fun _ _ _ => 0 }

/-- Name resolution against the INPUTS or SCALARS axis: the implicit
"unit" slot resolves in addition to the axis's own names (spec §3:
`input`∈INPUTS∪{"unit"}, `scalar`∈SCALARS∪{"unit"}). -/
def resolvesWithUnit (names : List String) (n : String) : Bool :=
  n = "unit" || names.contains n

/-- Modelled from the spec: `VarTransformer::set(output, input, scalar,
coefficient)` accumulates (does not overwrite) into the tensor cell and
returns false — leaving the tensor untouched — when any of the three
names fails to resolve against its bound axis (spec §4.2). -/
def VarTransformer.set (vt : VarTransformer) (o i s : String) (k : ℚ) :
    Bool × VarTransformer :=
  if vt.outputs.contains o && resolvesWithUnit vt.inputs i
      && resolvesWithUnit vt.scalars s then
    (true, { vt with coeff := fun o' i' s' =>
        if o' = o ∧ i' = i ∧ s' = s then vt.coeff o' i' s' + k
        else vt.coeff o' i' s' })
  else (false, vt)

/-- Value of a name on the INPUTS/SCALARS axis during evaluation: the
implicit "unit" slot is fixed at 1 (spec §4.2). -/
def unitVal (v : String → ℚ) (n : String) : ℚ :=
  if n = "unit" then 1 else v n

/-- Modelled from the spec: timestep evaluation
`out[o] = Σ_i Σ_s coeff[o,i,s] · in[i] · scalar[s]`, the sums running
over the INPUTS and SCALARS axes plus their implicit unit slots
(spec §4.2). -/
def VarTransformer.evaluate (vt : VarTransformer)
    (invals scavals : String → ℚ) (o : String) : ℚ :=
  ((vt.inputs ++ ["unit"]).map (fun i =>
    ((vt.scalars ++ ["unit"]).map (fun s =>
      vt.coeff o i s * unitVal invals i * unitVal scavals s)).sum)).sum

/-- One recipe entry: the four arguments of a `set` call. -/
abbrev SetCall := String × String × String × ℚ

/-- Embeds `ok = ok && vt.set(...)` chained over a call list: C++ `&&`
short-circuits, so once `ok` is false later `set` calls do not execute
(their coefficient writes do not happen). -/
def runRecipesFrom (st : Bool × VarTransformer) (rs : List SetCall) :
    Bool × VarTransformer :=
  rs.foldl (fun acc r =>
    if acc.1 then acc.2.set r.1 r.2.1 r.2.2.1 r.2.2.2 else acc) st

/-- The glint2 constant `C2K` (Celsius→Kelvin offset): the source
comment at src/slib/glint2/contracts/modele_pism.cpp line 132 documents
it as +273.15. -/
def C2K : ℚ := 27315 / 100

/-- Embeds `ModelE_CouplingType` as used at modele_pism.cpp
lines 77 and 129. -/
inductive ModelE_CouplingType where
  | DIRICHLET_BC
  | NEUMANN_BC
deriving DecidableEq

/-- Embeds the field-name constants of modele_pism.cpp lines 64-67. -/
def MASS_FLUX : String := "surface_downward_mass_flux"

/-- Embeds modele_pism.cpp line 65. -/
def ENTHALPY_FLUX : String := "surface_downward_enthalpy_flux"

/-- Embeds modele_pism.cpp line 66: `T = "surface_temperature"`. -/
def T_SURFACE : String := "surface_temperature"

/-- Embeds modele_pism.cpp line 67. -/
def HEAT_FLUX : String := "surface_downward_conductive_heat_flux"

/-- The ordered GCM→ice `ice_input` contract field names added at
modele_pism.cpp lines 70-96 (the Dirichlet branch adds the surface
temperature, the Neumann branch the conductive heat flux). -/
def ice_input_fields (ct : ModelE_CouplingType) : List String :=
  [MASS_FLUX, ENTHALPY_FLUX] ++
    (match ct with
     | .DIRICHLET_BC => [T_SURFACE]
     | .NEUMANN_BC => [HEAT_FLUX])

/-- The GCM→ice recipe: the sequence of `set` calls at modele_pism.cpp
lines 123-138, in source order.  `enth_modele_to_pism` is the enthalpy
offset computed at lines 105-111 (external `GLINT2EnthalpyConverter`;
the source comment at line 110 records its value as 437000 J/kg), kept
here as a parameter. -/
def ice_input_recipe (ct : ModelE_CouplingType)
    (enth_modele_to_pism : ℚ) : List SetCall :=
  [(MASS_FLUX, "lismb", "unit", 1),
   (ENTHALPY_FLUX, "liseb", "unit", 1),
   (ENTHALPY_FLUX, "lismb", "unit", enth_modele_to_pism)] ++
  (match ct with
   | .DIRICHLET_BC =>
      [(T_SURFACE, "litg2", "unit", 1),
       (T_SURFACE, "unit", "unit", C2K)]
   | .NEUMANN_BC => [])

/-- The ordered ice→GCM `ice_output` contract field names added at
modele_pism.cpp lines 144-154. -/
def ice_output_fields : List String :=
  ["usurf", "ice_surface_enth", "ice_surface_enth_depth",
   "basal_runoff.mass", "basal_runoff.enth", "calving.mass",
   "calving.enth", "strain_heating", "epsilon.mass", "epsilon.enth"]

/-- The ice→GCM recipe: the sequence of `set` calls at modele_pism.cpp
lines 164-186, in source order.  NOTE on the fourth entry: line 170 of
the source spells the coefficient `-enth_model_to_pism`, a near-duplicate
of the variable `enth_modele_to_pism` declared at line 109 (no variable
of the line-170 spelling is declared anywhere); it is embedded as the
same quantity, the evident intent.  Decisive for claim C1 is that the
call's INPUT argument is `"ice_surface_enth"`, not `"unit"`. -/
def ice_output_recipe (enth_modele_to_pism : ℚ) : List SetCall :=
  [("elev2", "usurf", "unit", 1),
   ("elev1", "usurf", "unit", 1),
   ("ice_surface_enth", "ice_surface_enth", "unit", 1),
   ("ice_surface_enth", "ice_surface_enth", "unit", -enth_modele_to_pism),
   ("ice_surface_enth_depth", "ice_surface_enth_depth", "unit", 1),
   ("basal_runoff.mass", "basal_runoff.mass", "unit", 1),
   ("basal_runoff.enth", "basal_runoff.enth", "unit", 1),
   ("basal_runoff.enth", "basal_runoff.enth", "unit", -enth_modele_to_pism),
   ("calving.mass", "calving.mass", "unit", 1),
   ("calving.enth", "calving.enth", "unit", 1),
   ("calving.enth", "calving.enth", "unit", -enth_modele_to_pism),
   ("strain_heating", "strain_heating", "unit", 1),
   ("epsilon.mass", "epsilon.mass", "unit", 1),
   ("epsilon.enth", "epsilon.enth", "unit", 1),
   ("epsilon.enth", "epsilon.enth", "unit", -enth_modele_to_pism)]

/-- The two transformers built by `setup_contracts_modele`. -/
structure ModeleSetupResult where
  ice_input_vt : VarTransformer
  ice_output_vt : VarTransformer

/-- Embeds the transformer part of `IceModel_PISM::setup_contracts_modele`
(modele_pism.cpp, lines 113-192): the INPUT transformer is allocated over
(INPUTS = the coupler's `gcm_outputs` names, OUTPUTS = the `ice_input`
contract, SCALARS = `ice_input_scalars`) and its recipe is run; the
OUTPUT transformer is allocated over (INPUTS = the `ice_output` contract,
OUTPUTS = the coupler's `gcm_inputs` names, SCALARS =
`ice_output_scalars`) and its recipe is run with the SAME `ok` flag
carried over; a single combined failure is raised at the end
(`if (!ok) throw std::exception();`, line 191).  The coupler's contracts
and scalar sets live outside src/, so their name lists are parameters. -/
def setup_contracts_modele (gcm_outputs gcm_inputs : List String)
    (ice_input_scalars ice_output_scalars : List String)
    (ct : ModelE_CouplingType) (enth_modele_to_pism : ℚ) :
    Except Unit ModeleSetupResult :=
  let ivt0 := VarTransformer.allocate gcm_outputs (ice_input_fields ct)
    ice_input_scalars
  let st1 := runRecipesFrom (true, ivt0) (ice_input_recipe ct enth_modele_to_pism)
  let ovt0 := VarTransformer.allocate ice_output_fields gcm_inputs
    ice_output_scalars
  let st2 := runRecipesFrom (st1.1, ovt0) (ice_output_recipe enth_modele_to_pism)
  if st2.1 then .ok { ice_input_vt := st1.2, ice_output_vt := st2.2 }
  else .error ()

/-- Whether one `set` call resolves against a transformer's axes (the
success condition of the spec-modelled `set`). -/
def callResolves (ins outs scas : List String) (r : SetCall) : Bool :=
  outs.contains r.1 && resolvesWithUnit ins r.2.1 && resolvesWithUnit scas r.2.2.1

/-! ### Sparse accumulators and coordinate-list vectors

`giss::SparseAccumulator<K,double>` is an unordered map summing values
added under the same key (MatrixMaker.cpp line 94: "the unordered_map
sums them automatically"); it is embedded as an association list whose
`accAdd` merges into an existing key.  `giss::CooVector` is a plain
coordinate list whose `add` appends and whose `sort` orders by index;
its consumers read it by summing duplicate entries, captured by
`cooSem`.  Values that may be IEEE non-finite are `Option ℚ` with `none`
standing for the NaN/Inf a C++ division by zero produces. -/

/-- C++ double division, with `none` for the non-finite result of a
division by zero. -/
def qdiv (a b : ℚ) : Option ℚ := if b = 0 then none else some (a / b)

/-- Addition on possibly-non-finite values: a `none` operand
contaminates the sum, as IEEE NaN does. -/
def addO : Option ℚ → Option ℚ → Option ℚ
  | some a, some b => some (a + b)
  | _, _ => none

/-- Embedded `giss::SparseAccumulator<K,double>`. -/
abbrev Accum (K : Type) := List (K × ℚ)

/-- `SparseAccumulator::add`: sum into the entry of an existing key,
create the entry otherwise. -/
def accAdd {K : Type} [DecidableEq K] : Accum K → K → ℚ → Accum K
  | [], k, v => [(k, v)]
  | (k', v') :: rest, k, v =>
      if k' = k then (k', v' + v) :: rest else (k', v') :: accAdd rest k v

/-- `SparseAccumulator::operator[]`: the stored value, or 0 for an
absent key (`std::unordered_map::operator[]` default-inserts 0.0). -/
def accLookup {K : Type} [DecidableEq K] : Accum K → K → ℚ
  | [], _ => 0
  | (k', v') :: rest, k => if k' = k then v' else accLookup rest k

/-- Whether a key is present in the accumulator. -/
def accMem {K : Type} [DecidableEq K] (m : Accum K) (k : K) : Bool :=
  m.any (fun e => e.1 = k)

/-- Embedded `giss::CooVector` (and the entry list of
`giss::VectorSparseMatrix`, with the key a (row, col) pair). -/
abbrev CooVec (K : Type) := List (K × Option ℚ)

/-- The vector a coordinate list represents: the sum of all entries
under the key (duplicates summed, the empty sum being 0). -/
def cooSem {K : Type} [DecidableEq K] : CooVec K → K → Option ℚ
  | [], _ => some 0
  | (k', v) :: l, k => if k' = k then addO v (cooSem l k) else cooSem l k

/-- Merge an entry into a coordinate list, summing with `addO` on an
existing key (the merging step of `sum_duplicates`). -/
def oaccAdd {K : Type} [DecidableEq K] : CooVec K → K → Option ℚ → CooVec K
  | [], k, v => [(k, v)]
  | (k', v') :: rest, k, v =>
      if k' = k then (k', addO v' v) :: rest else (k', v') :: oaccAdd rest k v

/-- Key order used by `CooVector::sort` on plain integer indices. -/
def leKey1 (a b : Int × Option ℚ) : Prop := a.1 ≤ b.1

instance : DecidableRel leKey1 := fun a b => Int.decLe a.1 b.1

/-- Key order used by `CooVector::sort` on (grid cell, height class)
pairs: lexicographic. -/
def leKey2 (a b : (Int × Int) × Option ℚ) : Prop :=
  a.1.1 < b.1.1 ∨ (a.1.1 = b.1.1 ∧ a.1.2 ≤ b.1.2)

instance : DecidableRel leKey2 := fun _ _ => instDecidableOr

/-! ### MatrixMaker::compute_fhc (claims C2, C3) -/

/-- One ice sheet as `MatrixMaker::compute_fhc` consumes it.
`IceSheet` (glint2/IceSheet.hpp) is not under src/; per spec §4.3 its
`accum_areas` adds the sheet's ice-covered overlap areas into a local
per-GCM-cell accumulator and the global per-(cell, height-class)
accumulator, so the sheet is represented by its raw contribution list of
(grid cell i1, height class hc, overlap area) triples.  `cellArea i1`
embeds `area_of_proj_polygon(*grid1->get_cell(i1), proj)` computed with
this sheet's own projection (MatrixMaker.cpp lines 75-81). -/
structure FhcSheet where
  contribs : List (Int × Int × ℚ)
  cellArea : Int → ℚ

/-- The sheet's `accum_areas(larea1_m, area1_m_hc)` call
(MatrixMaker.cpp line 72): each contribution is added to the local
per-cell accumulator under i1 and to the global per-(cell, height-class)
accumulator under (i1, hc). -/
def accum_areas (s : FhcSheet) (larea1_m : Accum Int)
    (area1_m_hc : Accum (Int × Int)) : Accum Int × Accum (Int × Int) :=
  s.contribs.foldl
    (fun acc c => (accAdd acc.1 c.1 c.2.2, accAdd acc.2 (c.1, c.2.1) c.2.2))
    (larea1_m, area1_m_hc)

/-- One iteration of the per-sheet loop of `MatrixMaker::compute_fhc`
(MatrixMaker.cpp lines 68-91): state is (global `area1_m`, global
`area1_m_hc`, the `fgice1` entry list).  `accum_areas` fills a fresh
local `larea1_m` and extends `area1_m_hc`; each local entry contributes
`ice_covered_area / area1` to `fgice1` using this sheet's projected cell
area; then the local accumulator is added into the global `area1_m`. -/
def fhcStep (st : Accum Int × Accum (Int × Int) × CooVec Int)
    (sheet : FhcSheet) : Accum Int × Accum (Int × Int) × CooVec Int :=
  ((accum_areas sheet [] st.2.1).1.foldl (fun m e => accAdd m e.1 e.2) st.1,
   (accum_areas sheet [] st.2.1).2,
   st.2.2 ++ (accum_areas sheet [] st.2.1).1.map
     (fun e => (e.1, qdiv e.2 (sheet.cellArea e.1))))

/-- The whole per-sheet loop of `MatrixMaker::compute_fhc`
(MatrixMaker.cpp lines 64-91), starting from empty accumulators and a
cleared `fgice1`. -/
def fhcLoop (sheets : List FhcSheet) :
    Accum Int × Accum (Int × Int) × CooVec Int :=
  sheets.foldl fhcStep ([], [], [])

/-- The two outputs of `compute_fhc`. -/
structure FhcResult where
  fhc1h : CooVec (Int × Int)
  fgice1 : CooVec Int

/-- Embeds `MatrixMaker::compute_fhc` (MatrixMaker.cpp lines 59-113):
the per-sheet loop, `fgice1.sort()`, then for every `area1_m_hc` entry
the weight `ii->second / area1_m[i1]` is appended to `fhc1h` (the
combined index i1hc is kept in its decoded (i1, hc) form, `HCIndex`
being the bijection between the two), and `fhc1h.sort()`.  There is no
guard on the divisor: a zero accumulated area flows into `qdiv`. -/
def compute_fhc (sheets : List FhcSheet) : FhcResult :=
  { fhc1h := List.insertionSort leKey2
      ((fhcLoop sheets).2.1.map
        (fun e => (e.1, qdiv e.2 (accLookup (fhcLoop sheets).1 e.1.1))))
    fgice1 := List.insertionSort leKey1 (fhcLoop sheets).2.2 }

/-- A batch carrying half of each of the sheet's overlap-area
contributions (same grid, same projection). -/
def halveSheet (s : FhcSheet) : FhcSheet :=
  { contribs := s.contribs.map (fun c => (c.1, c.2.1, c.2.2 / 2)),
    cellArea := s.cellArea }

/-- Total ice-covered overlap area the sheet contributes to GCM cell
`k`, summed across all height classes. -/
def totalAreaAt (s : FhcSheet) (k : Int) : ℚ :=
  (s.contribs.filterMap (fun c => if c.1 = k then some c.2.2 else none)).sum

/-- Total ice-covered overlap area the sheet contributes to the
(GCM cell, height class) pair `khc`. -/
def sumHcAt (s : FhcSheet) (khc : Int × Int) : ℚ :=
  (s.contribs.filterMap
    (fun c => if (c.1, c.2.1) = khc then some c.2.2 else none)).sum

/-- Witness data for C2: one ice sheet with three overlap contributions
on two GCM cells and a constant projected cell area of 10. -/
def c2Sheet : FhcSheet :=
  { contribs := [(0, 0, 6), (0, 1, 4), (1, 0, 5)], cellArea := fun _ => 10 }

/-- Witness data for C3: one ice sheet contributing a single overlap
entry of area 0 at cell 5, height class 2. -/
def c3Sheets : List FhcSheet :=
  [{ contribs := [(5, 2, 0)], cellArea := fun _ => 10 }]

/-! ### MatrixMaker::hp_to_hc (claim C4) -/

/-- One ice sheet as `MatrixMaker::hp_to_hc` consumes it: its
`hp_to_ice()` and `ice_to_hc(area1_m_hc)` sparse matrices (coordinate
lists keyed by (row, col)), plus the per-(cell, height-class) areas that
the `ice_to_hc` call adds into the shared accumulator (`IceSheet` is
external to src/). -/
structure HpSheet where
  hp_to_ice : List ((Int × Int) × ℚ)
  ice_to_hc : List ((Int × Int) × ℚ)
  areaContribs : List (Int × ℚ)

/-- Coordinate-list sparse matrix product `multiply(A, B)`: one entry
(r, c, v·w) for every pair of entries (r, k, v) of A and (k, c, w) of B;
duplicates are left for a later `sum_duplicates`. -/
def spMultiply (A B : List ((Int × Int) × ℚ)) : List ((Int × Int) × ℚ) :=
  A.flatMap (fun a => B.filterMap (fun b =>
    if a.1.2 = b.1.1 then some ((a.1.1, b.1.2), a.2 * b.2) else none))

/-- The per-sheet loop of `MatrixMaker::hp_to_hc` (MatrixMaker.cpp
lines 125-143): each sheet's `ice_to_hc(area1_m_hc)` accumulates its
areas into the shared accumulator, and `ret->append(*multiply(*ice_to_hc,
hp_to_ice))` appends the per-sheet product to the combined matrix. -/
def hpToHcLoop (sheets : List HpSheet) :
    List ((Int × Int) × ℚ) × Accum Int :=
  sheets.foldl (fun st s =>
    (st.1 ++ spMultiply s.ice_to_hc s.hp_to_ice,
     s.areaContribs.foldl (fun m e => accAdd m e.1 e.2) st.2)) ([], [])

/-- Embeds `giss::divide_by(mat, area, area_inv)`: every entry is
divided by the accumulated area under its row index (the `area_inv`
memo of reciprocals is a performance device with the same value). -/
def divide_by (M : List ((Int × Int) × ℚ)) (area : Accum Int) :
    CooVec (Int × Int) :=
  M.map (fun e => (e.1, qdiv e.2 (accLookup area e.1.1)))

/-- Embeds `VectorSparseMatrix::sum_duplicates()`: entries under the
same (row, col) coordinate are summed and the result is ordered by
coordinate (the source sorts first and merges adjacent runs; merging
first and then sorting the merged, duplicate-free list yields the same
list). -/
def sum_duplicates (M : CooVec (Int × Int)) : CooVec (Int × Int) :=
  List.insertionSort leKey2 (M.foldl (fun m e => oaccAdd m e.1 e.2) [])

/-- Embeds `MatrixMaker::hp_to_hc` (MatrixMaker.cpp lines 116-157): the
per-sheet append loop, then `divide_by(*ret, area1_m_hc, ...)`, then
`ret->sum_duplicates()`. -/
def hp_to_hc (sheets : List HpSheet) : CooVec (Int × Int) :=
  sum_duplicates (divide_by (hpToHcLoop sheets).1 (hpToHcLoop sheets).2)

/-- All per-sheet products `ice_to_hc * hp_to_ice`, appended in sheet
order into one combined coordinate list. -/
def allProducts (sheets : List HpSheet) : List ((Int × Int) × ℚ) :=
  sheets.flatMap (fun s => spMultiply s.ice_to_hc s.hp_to_ice)

/-- The fully accumulated per-(cell, height-class) area over all
sheets. -/
def allAreaContribs (sheets : List HpSheet) : Accum Int :=
  (sheets.flatMap (fun s => s.areaContribs)).foldl (fun m e => accAdd m e.1 e.2) []

/-! ### make_merged_topoo error flow (claim C5) -/

/-- Outcome of a `make_merged_topoo` run: either the fatal-abort path
through `icebin_error` (which prints the message and terminates), or a
normal return carrying the list of errors printed to stderr and the
process exit code. -/
inductive ToolOutcome where
  | fatal (msg : String)
  | done (reported : List String) (code : Int)
deriving DecidableEq

/-- Embeds `xfname.find(':')` / `substr` of make_merged_topoo.cpp
lines 236-241: the part before the first colon and the part after it,
or `none` when there is no colon. -/
def parseColon (x : String) : Option (String × String) :=
  let l := x.toList
  let pre := l.takeWhile (fun c => c ≠ ':')
  if pre.length = l.length then none
  else some (⟨pre⟩, ⟨l.drop (pre.length + 1)⟩)

/-- Embeds the elevmask-reading loop of make_merged_topoo.cpp
lines 234-255: a spec without a colon, or with a format tag other than
"pism", reaches `(*icebin_error)(-1, ...)` — an immediate fatal abort —
while "pism" specs are read and the loop continues. -/
def readElevmasks : List String → Except String Unit
  | [] => .ok ()
  | x :: rest =>
    match parseColon x with
    | none =>
        .error ("elevmask spec '" ++ x ++ "' must be in the format of type:fname")
    | some (stype, _) =>
        if stype = "pism" then readElevmasks rest
        else .error ("Unrecognized elevmask spec type " ++ stype)

/-- Whether one elevmask spec parses and carries the only recognized
format tag, "pism". -/
def specRecognized (x : String) : Bool :=
  match parseColon x with
  | none => false
  | some (stype, _) => stype = "pism"

/-- Embeds the error handling of `main` in make_merged_topoo.cpp: the
elevmask loop runs first (lines 234-255, aborting fatally on a bad
spec); the error strings that `merge_topoO` and
`compute_EOpvAOp_merged` append to `errors` (lines 257-272; both
functions live outside src/ and are modelled as the input list
`mergeErrors`, per spec §7 they collect data errors into the list) are
then all printed (line 276), and the process returns -1 when the list
is non-empty and 0 otherwise (lines 314-315). -/
def make_merged_topoo_main (xfnames mergeErrors : List String) : ToolOutcome :=
  match readElevmasks xfnames with
  | .error msg => .fatal msg
  | .ok () => .done mergeErrors (if mergeErrors.length > 0 then -1 else 0)

/-! ### Concrete instantiations used by closed theorems and witnesses -/

/-- A test instantiation of the ModelE coupler's `gcm_outputs` contract
names (`GCMCoupler_ModelE` is outside src/): the three names the src
recipes reference. -/
def gcm_outputs_names : List String := ["lismb", "liseb", "litg2"]

/-- A test instantiation of the ModelE coupler's `gcm_inputs` contract
names (outside src/): the output names the src ice→GCM recipe
references. -/
def gcm_inputs_names : List String :=
  ["elev2", "elev1", "ice_surface_enth", "ice_surface_enth_depth",
   "basal_runoff.mass", "basal_runoff.enth", "calving.mass",
   "calving.enth", "strain_heating", "epsilon.mass", "epsilon.enth"]

/-- The enthalpy offset value recorded by the source comment at
modele_pism.cpp line 110: `enth_modele_to_pism == 437000 J/kg`. -/
def enthOffsetValue : ℚ := 437000

/-- A small concrete contract used as a witness input: one field,
"usurf", at index 0. -/
def exampleContract : CouplingContract :=
  { ix_to_field := [namedField "usurf"], name_to_ix := [("usurf", 0)],
    size_nounit_f := 1, unit_ix_f := 1 }

/-! ## Lemmas about the sparse primitives -/

theorem addO_none_left (x : Option ℚ) : addO none x = none := by
  cases x <;> rfl

theorem addO_none_right (x : Option ℚ) : addO x none = none := by
  cases x <;> rfl

theorem addO_zero_left (x : Option ℚ) : addO (some 0) x = x := by
  cases x with
  | none => rfl
  | some a => simp [addO]

theorem addO_zero_right (x : Option ℚ) : addO x (some 0) = x := by
  cases x with
  | none => rfl
  | some a => simp [addO]

theorem addO_comm (x y : Option ℚ) : addO x y = addO y x := by
  cases x <;> cases y <;> simp [addO] <;> ring

theorem addO_assoc (x y z : Option ℚ) :
    addO (addO x y) z = addO x (addO y z) := by
  cases x <;> cases y <;> cases z <;> simp [addO] <;> ring

theorem foldl_addO_eq (a : Option ℚ) (l : List (Option ℚ)) :
    l.foldl addO a = addO a (l.foldl addO (some 0)) := by
  induction l generalizing a with
  | nil => simp [addO_zero_right]
  | cons x l ih =>
      simp only [List.foldl_cons]
      rw [ih (addO a x), ih (addO (some 0) x), addO_zero_left, addO_assoc]

theorem cooSem_nil {K : Type} [DecidableEq K] (k : K) :
    cooSem ([] : CooVec K) k = some 0 := rfl

theorem cooSem_cons {K : Type} [DecidableEq K] (k' : K) (v : Option ℚ)
    (l : CooVec K) (k : K) :
    cooSem ((k', v) :: l) k =
      if k' = k then addO v (cooSem l k) else cooSem l k := rfl

theorem cooSem_append {K : Type} [DecidableEq K] (l₁ l₂ : CooVec K) (k : K) :
    cooSem (l₁ ++ l₂) k = addO (cooSem l₁ k) (cooSem l₂ k) := by
  induction l₁ with
  | nil => rw [List.nil_append, cooSem_nil, addO_zero_left]
  | cons e l₁ ih =>
      rcases e with ⟨k', v⟩
      rw [List.cons_append, cooSem_cons, cooSem_cons]
      by_cases h : k' = k
      · rw [if_pos h, if_pos h, ih, addO_assoc]
      · rw [if_neg h, if_neg h, ih]

theorem cooSem_perm {K : Type} [DecidableEq K] {l₁ l₂ : CooVec K}
    (h : l₁.Perm l₂) (k : K) : cooSem l₁ k = cooSem l₂ k := by
  induction h with
  | nil => rfl
  | cons x _ ih =>
      rcases x with ⟨k', v⟩
      rw [cooSem_cons, cooSem_cons, ih]
  | swap x y l =>
      rcases x with ⟨kx, vx⟩
      rcases y with ⟨ky, vy⟩
      rw [cooSem_cons, cooSem_cons, cooSem_cons, cooSem_cons]
      by_cases hx : kx = k <;> by_cases hy : ky = k <;>
        simp only [if_pos, if_neg, hx, hy, if_true, if_false]
      rw [← addO_assoc, ← addO_assoc, addO_comm vx vy]
  | trans _ _ ih₁ ih₂ => rw [ih₁, ih₂]

theorem cooSem_insertionSort {K : Type} [DecidableEq K]
    (r : K × Option ℚ → K × Option ℚ → Prop) [DecidableRel r]
    (l : CooVec K) (k : K) :
    cooSem (List.insertionSort r l) k = cooSem l k :=
  cooSem_perm (List.perm_insertionSort r l) k

theorem cooSem_none_of_mem {K : Type} [DecidableEq K] {l : CooVec K} {k : K}
    (h : (k, (none : Option ℚ)) ∈ l) : cooSem l k = none := by
  induction l with
  | nil => cases h
  | cons e l ih =>
      rcases e with ⟨k', v⟩
      rcases List.mem_cons.mp h with he | hl
      · rcases Prod.mk.inj he.symm with ⟨h1, h2⟩
        rw [cooSem_cons, if_pos h1, h2, addO_none_left]
      · rw [cooSem_cons]
        by_cases hk : k' = k
        · rw [if_pos hk, ih hl, addO_none_right]
        · rw [if_neg hk]
          exact ih hl

theorem accLookup_accAdd {K : Type} [DecidableEq K] (m : Accum K)
    (k' : K) (v : ℚ) (k : K) :
    accLookup (accAdd m k' v) k = accLookup m k + (if k' = k then v else 0) := by
  induction m with
  | nil =>
      by_cases h : k' = k <;> simp [accAdd, accLookup, h]
  | cons e m ih =>
      rcases e with ⟨k₀, v₀⟩
      by_cases h₀ : k₀ = k'
      · subst h₀
        by_cases h : k₀ = k <;> simp [accAdd, accLookup, h]
      · by_cases h : k₀ = k
        · subst h
          have : ¬ k' = k₀ := fun hc => h₀ hc.symm
          simp [accAdd, accLookup, h₀, this, if_neg this]
        · simp [accAdd, accLookup, h₀, h, ih]

theorem accMem_accAdd {K : Type} [DecidableEq K] (m : Accum K)
    (k' : K) (v : ℚ) (k : K) :
    accMem (accAdd m k' v) k = (accMem m k || decide (k' = k)) := by
  induction m with
  | nil => simp [accAdd, accMem, List.any_cons, eq_comm]
  | cons e m ih =>
      rcases e with ⟨k₀, v₀⟩
      by_cases h₀ : k₀ = k'
      · subst h₀
        by_cases h : k₀ = k <;>
          simp [accAdd, accMem, List.any_cons, h, eq_comm, Bool.or_assoc]
      · simp only [accAdd, if_neg h₀, accMem, List.any_cons] at ih ⊢
        rw [ih, Bool.or_assoc]

/-- Accumulating a whole list of keyed contributions: the lookup is the
initial lookup plus the sum of the matching contributions. -/
theorem accLookup_foldAdd {K α : Type} [DecidableEq K]
    (kf : α → K) (vf : α → ℚ) (l : List α) (m : Accum K) (k : K) :
    accLookup (l.foldl (fun m a => accAdd m (kf a) (vf a)) m) k =
      accLookup m k +
        (l.filterMap (fun a => if kf a = k then some (vf a) else none)).sum := by
  induction l generalizing m with
  | nil => simp
  | cons a l ih =>
      rw [List.foldl_cons, ih, accLookup_accAdd, List.filterMap_cons]
      by_cases h : kf a = k
      · rw [if_pos h, if_pos h, List.sum_cons]
        ring
      · rw [if_neg h, if_neg h, add_zero]

/-- Accumulating a whole list of keyed contributions: a key is present
when it was present initially or some contribution carries it. -/
theorem accMem_foldAdd {K α : Type} [DecidableEq K]
    (kf : α → K) (vf : α → ℚ) (l : List α) (m : Accum K) (k : K) :
    accMem (l.foldl (fun m a => accAdd m (kf a) (vf a)) m) k =
      (accMem m k || l.any (fun a => kf a = k)) := by
  induction l generalizing m with
  | nil => simp
  | cons a l ih =>
      rw [List.foldl_cons, ih, accMem_accAdd, List.any_cons, Bool.or_assoc]

/-- Keys of an accumulator are pairwise distinct. -/
def KeysNodup {K V : Type} (m : List (K × V)) : Prop :=
  (m.map Prod.fst).Nodup

theorem keysNodup_nil {K V : Type} : KeysNodup ([] : List (K × V)) := by
  simp [KeysNodup]

theorem mem_keys_accAdd {K : Type} [DecidableEq K] (m : Accum K)
    (k' : K) (v : ℚ) (a : K) :
    a ∈ (accAdd m k' v).map Prod.fst ↔ a ∈ m.map Prod.fst ∨ a = k' := by
  induction m with
  | nil => simp [accAdd]
  | cons e m ih =>
      rcases e with ⟨k₀, v₀⟩
      by_cases h₀ : k₀ = k'
      · subst h₀
        simp only [accAdd, eq_self_iff_true, if_true, List.map_cons,
          List.mem_cons]
        tauto
      · simp only [accAdd, if_neg h₀, List.map_cons, List.mem_cons, ih]
        tauto

theorem keysNodup_accAdd {K : Type} [DecidableEq K] {m : Accum K}
    (h : KeysNodup m) (k : K) (v : ℚ) : KeysNodup (accAdd m k v) := by
  induction m with
  | nil => simp [accAdd, KeysNodup]
  | cons e m ih =>
      rcases e with ⟨k₀, v₀⟩
      rcases List.nodup_cons.mp h with ⟨hk₀, hm⟩
      by_cases h₀ : k₀ = k
      · simpa [KeysNodup, accAdd, if_pos h₀] using h
      · simp only [KeysNodup, accAdd, if_neg h₀, List.map_cons, List.nodup_cons]
        refine ⟨fun hc => ?_, ih hm⟩
        rcases (mem_keys_accAdd m k v k₀).mp hc with hin | hek
        · exact hk₀ hin
        · exact h₀ hek

theorem keysNodup_foldAdd {K α : Type} [DecidableEq K]
    (kf : α → K) (vf : α → ℚ) (l : List α) {m : Accum K}
    (h : KeysNodup m) :
    KeysNodup (l.foldl (fun m a => accAdd m (kf a) (vf a)) m) := by
  induction l generalizing m with
  | nil => exact h
  | cons a l ih => exact ih (keysNodup_accAdd h (kf a) (vf a))

/-- With distinct keys, the sum of the entries matching a key collapses
to the lookup. -/
theorem accLookup_eq_sum_of_nodup {K : Type} [DecidableEq K] {m : Accum K}
    (h : KeysNodup m) (k : K) :
    (m.filterMap (fun e => if e.1 = k then some e.2 else none)).sum =
      accLookup m k := by
  induction m with
  | nil => simp [accLookup]
  | cons e m ih =>
      rcases e with ⟨k₀, v₀⟩
      rcases List.nodup_cons.mp h with ⟨hk₀, hm⟩
      by_cases hek : k₀ = k
      · subst hek
        have hnone : ∀ e ∈ m, (if e.1 = k₀ then some e.2 else none) = none := by
          intro e he
          have h1 : e.1 ∈ m.map Prod.fst := List.mem_map_of_mem Prod.fst he
          have hne : e.1 ≠ k₀ := fun hc => hk₀ (hc ▸ h1)
          simp [hne]
        rw [List.filterMap_cons]
        simp only [if_pos rfl, List.sum_cons, List.filterMap_eq_nil.mpr hnone]
        simp [accLookup]
      · rw [List.filterMap_cons, if_neg hek, ih hm]
        simp [accLookup, hek]

/-- Semantics of a coordinate list built by transforming each entry of a
duplicate-free accumulator: the single matching entry, or the empty
sum. -/
theorem cooSem_map_acc {K : Type} [DecidableEq K] {A : Accum K}
    (h : KeysNodup A) (g : K → ℚ → Option ℚ) (k : K) :
    cooSem (A.map (fun e => (e.1, g e.1 e.2))) k =
      if accMem A k then g k (accLookup A k) else some 0 := by
  induction A with
  | nil => simp [cooSem, accMem]
  | cons e A ih =>
      rcases e with ⟨k₀, v₀⟩
      rcases List.nodup_cons.mp h with ⟨hk₀, hA⟩
      rw [List.map_cons, cooSem_cons]
      have hacc : accMem ((k₀, v₀) :: A) k = (decide (k₀ = k) || accMem A k) := rfl
      have hlook : accLookup ((k₀, v₀) :: A) k =
          if k₀ = k then v₀ else accLookup A k := rfl
      by_cases hek : k₀ = k
      · subst hek
        have hmem : accMem A k₀ = false := by
          rw [accMem, List.any_eq_false]
          intro e he
          simp only [decide_eq_true_eq]
          intro hc
          have h1 : e.1 ∈ A.map Prod.fst := List.mem_map_of_mem Prod.fst he
          exact hk₀ (hc ▸ h1)
        rw [if_pos rfl, ih hA, hmem, hacc, hlook]
        simp [addO_zero_right]
      · have hd : decide (k₀ = k) = false := by simp [hek]
        rw [if_neg hek, ih hA, hacc, hlook, hd, Bool.false_or, if_neg hek]

/-- Merging one entry into a coordinate list shifts its semantics by the
entry, at the entry's key. -/
theorem cooSem_oaccAdd {K : Type} [DecidableEq K] (m : CooVec K)
    (k : K) (v : Option ℚ) (rc : K) :
    cooSem (oaccAdd m k v) rc =
      if k = rc then addO (cooSem m rc) v else cooSem m rc := by
  induction m with
  | nil =>
      by_cases h : k = rc <;>
        simp [oaccAdd, cooSem_cons, h, addO_zero_left, addO_zero_right, cooSem]
  | cons e m ih =>
      rcases e with ⟨k₀, v₀⟩
      by_cases h₀ : k₀ = k
      · subst h₀
        rw [oaccAdd, if_pos rfl, cooSem_cons, cooSem_cons]
        by_cases h : k₀ = rc
        · simp only [if_pos h]
          cases cooSem m rc <;> cases v₀ <;> cases v <;> simp [addO] <;> ring
        · simp only [if_neg h]
      · rw [oaccAdd, if_neg h₀, cooSem_cons, cooSem_cons]
        by_cases h : k₀ = rc
        · have hk : ¬ k = rc := fun hc => h₀ (h.symm ▸ hc ▸ rfl)
          rw [if_pos h, if_pos h, ih, if_neg hk, if_neg hk]
        · rw [if_neg h, if_neg h, ih]

/-- Folding a whole coordinate list into an accumulator with `oaccAdd`
preserves (and shifts by the initial accumulator) the semantics. -/
theorem cooSem_mergeFold {K : Type} [DecidableEq K] (M : CooVec K)
    (m : CooVec K) (rc : K) :
    cooSem (M.foldl (fun m e => oaccAdd m e.1 e.2) m) rc =
      addO (cooSem m rc) (cooSem M rc) := by
  induction M generalizing m with
  | nil => rw [List.foldl_nil, cooSem_nil, addO_zero_right]
  | cons e M ih =>
      rcases e with ⟨k, v⟩
      rw [List.foldl_cons, ih, cooSem_oaccAdd, cooSem_cons]
      by_cases h : k = rc
      · simp only [if_pos h]
        cases cooSem m rc <;> cases cooSem M rc <;> cases v <;>
          simp [addO] <;> ring
      · simp only [if_neg h]

/-- `sum_duplicates` does not change the represented matrix. -/
theorem cooSem_sum_duplicates (M : CooVec (Int × Int)) (rc : Int × Int) :
    cooSem (sum_duplicates M) rc = cooSem M rc := by
  rw [sum_duplicates, cooSem_insertionSort, cooSem_mergeFold, cooSem_nil,
    addO_zero_left]

/-! ## Claim theorems -/

/-- C10: for every `CoupledField`, the const-lvalue-reference overload
`CouplingContract::add_field(CoupledField const&)` never terminates:
`std::move` applied to the const parameter produces a const rvalue,
which cannot bind to the `CoupledField&&` overload and re-selects the
const-reference overload, so the call chain stays in the const-reference
overload at every depth (the recursion never reaches the
rvalue-reference overload, which would end it); had the non-const local
copy `dup` been passed instead, the rvalue overload would have been
selected. -/
theorem add_field_const_overload_recurses_forever :
    (∀ n : Nat, addFieldTrace n = some AddFieldOverload.constLRef) ∧
    resolveAddField constOverloadCallArg = AddFieldOverload.constLRef ∧
    resolveAddField (stdMove { isConst := false, cat := ValueCat.lv }) =
      AddFieldOverload.rvalueRef := by
  refine ⟨fun n => ?_, rfl, rfl⟩
  induction n with
  | zero => rfl
  | succ n ih =>
      rw [addFieldTrace, ih]
      rfl

/-- C6: for every contract and name, `CouplingContract::index` with
`throw_exception = true` terminates fatally with a diagnostic naming the
missing field when the name is not registered, while
`throw_exception = false` returns -1; a registered name's stored index
is returned in both modes. -/
theorem coupling_contract_index_policy :
    ∀ (c : CouplingContract) (name : String),
      (lookupName c.name_to_ix name = none →
        c.index name true =
          IndexResult.fatal
            ("CouplingContract::index(): name '" ++ name ++ "' not found") ∧
        c.index name false = IndexResult.ret (-1)) ∧
      (∀ ix : Int, lookupName c.name_to_ix name = some ix →
        c.index name true = IndexResult.ret ix ∧
        c.index name false = IndexResult.ret ix) := by
  intro c name
  constructor
  · intro h
    constructor <;> simp [CouplingContract.index, h]
  · intro ix h
    constructor <;> simp [CouplingContract.index, h]

/-- Witness for C6: on a one-field contract, the missing name "missing"
is fatal in strict mode and -1 in non-strict mode, and the registered
name "usurf" yields index 0 in both modes. -/
theorem coupling_contract_index_policy_witness :
    (CouplingContract.index exampleContract "missing" true =
        IndexResult.fatal
          "CouplingContract::index(): name 'missing' not found" ∧
      CouplingContract.index exampleContract "missing" false =
        IndexResult.ret (-1)) ∧
    (CouplingContract.index exampleContract "usurf" true =
        IndexResult.ret 0 ∧
      CouplingContract.index exampleContract "usurf" false =
        IndexResult.ret 0) :=
  ⟨(coupling_contract_index_policy exampleContract "missing").1 (by decide),
   (coupling_contract_index_policy exampleContract "usurf").2 0 (by decide)⟩

/-- C7 counterexample: on a freshly default-constructed contract with no
fields added, `size_withunit()` is 0 and `size_nounit()` is 0, so
`size_withunit = size_nounit + 1` fails. -/
theorem contract_size_fresh_counterexample :
    ¬ (freshContract.size_withunit = freshContract.size_nounit + 1) := by
  decide

/-- The running difference `size_withunit - size_nounit` grows by
exactly the number of added fields named "unit". -/
theorem addFields_size_diff :
    ∀ (fs : List CoupledField) (c c' : CouplingContract),
      addFields c fs = some c' →
      c'.size_withunit - c'.size_nounit =
        c.size_withunit - c.size_nounit +
          ((fs.filter (fun cf => cf.name == "unit")).length : Int) := by
  intro fs
  induction fs with
  | nil =>
      intro c c' h
      rw [addFields] at h
      cases h
      simp
  | cons cf fs ih =>
      intro c c' h
      rw [addFields] at h
      rcases h1 : c.add_field cf with _ | c₁
      · rw [h1] at h
        cases h
      · rw [h1] at h
        have hstep :
            c₁.size_withunit - c₁.size_nounit =
              c.size_withunit - c.size_nounit +
                (if cf.name = "unit" then 1 else 0) := by
          rw [CouplingContract.add_field] at h1
          rcases hl : lookupName c.name_to_ix cf.name with _ | ix
          · rw [hl] at h1
            cases h1
            by_cases hu : cf.name = "unit" <;>
              simp [CouplingContract.size_withunit,
                CouplingContract.size_nounit, hu] <;> ring
          · rw [hl] at h1
            cases h1
        rw [ih c₁ c' h, hstep, List.filter_cons]
        by_cases hu : cf.name = "unit"
        · simp [hu]
          ring
        · simp [hu]

/-- C7 (amended): `size_withunit = size_nounit + 1` does not hold of a
fresh contract (both are 0 there); it holds of every contract reached
from a fresh one by successful `add_field` calls exactly one of which
adds the implicit "unit" pseudo-field. -/
theorem contract_size_invariant_after_unit :
    ∀ (fs : List CoupledField) (c' : CouplingContract),
      addFields freshContract fs = some c' →
      (fs.filter (fun cf => cf.name == "unit")).length = 1 →
      c'.size_withunit = c'.size_nounit + 1 := by
  intro fs c' h hu
  have hd := addFields_size_diff fs freshContract c' h
  rw [hu] at hd
  have h0 : freshContract.size_withunit - freshContract.size_nounit = 0 := by
    decide
  omega

/-- Witness for C7 (amended): adding the "unit" pseudo-field and one
regular field to a fresh contract yields `size_withunit = 2` and
`size_nounit = 1`. -/
theorem contract_size_invariant_after_unit_witness :
    addFields freshContract [namedField "unit", namedField "usurf"] =
      some { ix_to_field := [namedField "unit", namedField "usurf"],
             name_to_ix := [("unit", 0), ("usurf", 1)],
             size_nounit_f := 1, unit_ix_f := 0 } ∧
    ([namedField "unit", namedField "usurf"].filter
        (fun cf => cf.name == "unit")).length = 1 ∧
    ({ ix_to_field := [namedField "unit", namedField "usurf"],
       name_to_ix := [("unit", 0), ("usurf", 1)],
       size_nounit_f := 1, unit_ix_f := 0 : CouplingContract}).size_withunit =
      ({ ix_to_field := [namedField "unit", namedField "usurf"],
         name_to_ix := [("unit", 0), ("usurf", 1)],
         size_nounit_f := 1, unit_ix_f := 0 : CouplingContract}).size_nounit + 1 :=
  ⟨by decide, by decide,
   contract_size_invariant_after_unit
     [namedField "unit", namedField "usurf"] _ (by decide) (by decide)⟩

/-- C5 counterexample: an unrecognized ice-sheet format specifier
("foo") is not collected into the error list and does not produce a
reported-list/exit-code outcome: `make_merged_topoo` aborts immediately
and fatally on it. -/
theorem merged_topoo_badspec_counterexample :
    make_merged_topoo_main ["foo:a.nc"] [] =
      ToolOutcome.fatal "Unrecognized elevmask spec type foo" ∧
    make_merged_topoo_main ["foo:a.nc"] [] ≠
      ToolOutcome.done ["Unrecognized elevmask spec type foo"] (-1) := by
  constructor
  · rfl
  · intro h
    cases h

/-- The elevmask loop succeeds exactly when every spec parses and
carries the "pism" format tag. -/
theorem readElevmasks_ok_iff :
    ∀ xfnames : List String,
      readElevmasks xfnames = Except.ok () ↔
        xfnames.all specRecognized = true := by
  intro xfnames
  induction xfnames with
  | nil => simp [readElevmasks]
  | cons x rest ih =>
      rw [readElevmasks, List.all_cons]
      rcases hp : parseColon x with _ | ⟨stype, sname⟩
      · simp [specRecognized, hp]
      · by_cases hs : stype = "pism"
        · simp [specRecognized, hp, hs, ih]
        · simp [specRecognized, hp, hs]

/-- C5 (amended): when every elevmask spec is recognized, the data
errors appended by the merge steps are all reported and the tool exits
with -1 exactly when the list is non-empty (0 when it is empty); an
unrecognized format specifier instead aborts fatally during input
parsing, before the error list is even created. -/
theorem merged_topoo_collect_then_decide :
    ∀ (xfnames mergeErrors : List String),
      xfnames.all specRecognized = true →
      (mergeErrors = [] →
        make_merged_topoo_main xfnames mergeErrors =
          ToolOutcome.done mergeErrors 0) ∧
      (mergeErrors ≠ [] →
        make_merged_topoo_main xfnames mergeErrors =
          ToolOutcome.done mergeErrors (-1)) := by
  intro xfnames mergeErrors hall
  have hok : readElevmasks xfnames = Except.ok () :=
    (readElevmasks_ok_iff xfnames).mpr hall
  constructor
  · intro he
    subst he
    rw [make_merged_topoo_main, hok]
    rfl
  · intro he
    rw [make_merged_topoo_main, hok]
    have hl : mergeErrors.length > 0 := List.length_pos.mpr he
    simp [hl]

/-- Witness for C5 (amended): with the recognized spec "pism:a.nc", an
empty error list exits 0 and a one-error list is reported and exits
-1. -/
theorem merged_topoo_collect_then_decide_witness :
    make_merged_topoo_main ["pism:a.nc"] [] = ToolOutcome.done [] 0 ∧
    make_merged_topoo_main ["pism:a.nc"] ["zero accumulated area"] =
      ToolOutcome.done ["zero accumulated area"] (-1) :=
  ⟨(merged_topoo_collect_then_decide ["pism:a.nc"] [] (by decide)).1 rfl,
   (merged_topoo_collect_then_decide ["pism:a.nc"]
      ["zero accumulated area"] (by decide)).2 (by decide)⟩

/-- The success flag of one `set` call is exactly the three-way name
resolution check. -/
theorem VarTransformer.set_fst (vt : VarTransformer) (o i s : String) (k : ℚ) :
    (vt.set o i s k).1 =
      (vt.outputs.contains o && resolvesWithUnit vt.inputs i &&
        resolvesWithUnit vt.scalars s) := by
  by_cases h : (vt.outputs.contains o && resolvesWithUnit vt.inputs i &&
      resolvesWithUnit vt.scalars s) = true
  · rw [VarTransformer.set, if_pos h, h]
  · rw [VarTransformer.set, if_neg h]
    rw [Bool.not_eq_true] at h
    exact h.symm

/-- A `set` call never changes the three axes, only the tensor. -/
theorem VarTransformer.set_axes (vt : VarTransformer) (o i s : String) (k : ℚ) :
    ((vt.set o i s k).2).inputs = vt.inputs ∧
    ((vt.set o i s k).2).outputs = vt.outputs ∧
    ((vt.set o i s k).2).scalars = vt.scalars := by
  rw [VarTransformer.set]
  split
  · exact ⟨rfl, rfl, rfl⟩
  · exact ⟨rfl, rfl, rfl⟩

/-- The flag after a chained `ok = ok && set(...)` sequence is the
initial flag ANDed with resolution of every call in the list. -/
theorem runRecipesFrom_fst :
    ∀ (rs : List SetCall) (st : Bool × VarTransformer),
      (runRecipesFrom st rs).1 =
        (st.1 && rs.all (callResolves st.2.inputs st.2.outputs st.2.scalars)) := by
  intro rs
  induction rs with
  | nil =>
      intro st
      simp [runRecipesFrom]
  | cons r rs ih =>
      intro st
      rcases st with ⟨b, vt⟩
      have hstep : runRecipesFrom (b, vt) (r :: rs) =
          runRecipesFrom
            (if b = true then vt.set r.1 r.2.1 r.2.2.1 r.2.2.2 else (b, vt)) rs := rfl
      rw [hstep]
      cases b with
      | false =>
          rw [if_neg (by simp), ih (false, vt)]
          simp
      | true =>
          rw [if_pos rfl, ih (vt.set r.1 r.2.1 r.2.2.1 r.2.2.2)]
          rcases VarTransformer.set_axes vt r.1 r.2.1 r.2.2.1 r.2.2.2 with
            ⟨h1, h2, h3⟩
          rw [h1, h2, h3, VarTransformer.set_fst, List.all_cons]
          simp [callResolves]

/-- C8: every spec-modelled `VarTransformer::set` call whose output,
input, or scalar name fails to resolve against its bound axis returns
false, and `setup_contracts_modele` ANDs the results of its whole
sequence of `set` calls (both the INPUT and OUTPUT recipes) into one
flag and raises exactly one combined failure at the end when that flag
is false; no individual failed `set` aborts by itself — the setup result
is the single exception exactly when some call in either recipe fails to
resolve. -/
theorem setup_contracts_combined_failure :
    ∀ (gcm_outs gcm_ins iis ios : List String) (ct : ModelE_CouplingType)
      (c : ℚ),
      (∀ (vt : VarTransformer) (o i s : String) (k : ℚ),
        (vt.set o i s k).1 =
          (vt.outputs.contains o && resolvesWithUnit vt.inputs i &&
            resolvesWithUnit vt.scalars s)) ∧
      (setup_contracts_modele gcm_outs gcm_ins iis ios ct c =
          Except.error () ↔
        ¬ ((ice_input_recipe ct c).all
             (callResolves gcm_outs (ice_input_fields ct) iis) = true ∧
           (ice_output_recipe c).all
             (callResolves ice_output_fields gcm_ins ios) = true)) := by
  intro gcm_outs gcm_ins iis ios ct c
  refine ⟨fun vt o i s k => VarTransformer.set_fst vt o i s k, ?_⟩
  have h1 : (runRecipesFrom
      (true, VarTransformer.allocate gcm_outs (ice_input_fields ct) iis)
      (ice_input_recipe ct c)).1 =
      (ice_input_recipe ct c).all
        (callResolves gcm_outs (ice_input_fields ct) iis) := by
    rw [runRecipesFrom_fst]
    simp [VarTransformer.allocate]
  have h2 : ∀ b : Bool, (runRecipesFrom
      (b, VarTransformer.allocate ice_output_fields gcm_ins ios)
      (ice_output_recipe c)).1 =
      (b && (ice_output_recipe c).all
        (callResolves ice_output_fields gcm_ins ios)) := by
    intro b
    rw [runRecipesFrom_fst]
    simp [VarTransformer.allocate]
  simp only [setup_contracts_modele, h2, h1]
  by_cases hb : ((ice_input_recipe ct c).all
      (callResolves gcm_outs (ice_input_fields ct) iis) &&
      (ice_output_recipe c).all
        (callResolves ice_output_fields gcm_ins ios)) = true
  · rw [if_pos hb]
    rw [Bool.and_eq_true] at hb
    simp [hb.1, hb.2]
  · rw [if_neg hb]
    rw [Bool.and_eq_true] at hb
    simp only [iff_true_intro rfl, true_iff]
    tauto

/-- C9 counterexample: the Dirichlet temperature recipe actually built
by `setup_contracts_modele` uses the input name "litg2", not "litg"
(modele_pism.cpp line 131); the recipe contains no `set` call with input
"litg", and against the GCM output contract names referenced by the src
recipes a `set` with input "litg" fails to resolve (returns false)
rather than resolving successfully. -/
theorem dirichlet_recipe_uses_litg2_not_litg :
    ((ice_input_recipe ModelE_CouplingType.DIRICHLET_BC
        enthOffsetValue).contains
      (T_SURFACE, "litg", "unit", (1 : ℚ)) = false) ∧
    ((ice_input_recipe ModelE_CouplingType.DIRICHLET_BC
        enthOffsetValue).contains
      (T_SURFACE, "litg2", "unit", (1 : ℚ)) = true) ∧
    (((VarTransformer.allocate gcm_outputs_names
        (ice_input_fields ModelE_CouplingType.DIRICHLET_BC) []).set
        T_SURFACE "litg" "unit" 1).1 = false) := by
  refine ⟨by decide, by decide, by decide⟩

/-- C9 (amended): the Dirichlet temperature recipe is
`set(T, "litg2", "unit", 1.0); set(T, "unit", "unit", C2K = 273.15)`;
both names resolve against the GCM output contract (which carries
"litg2"), and evaluating the INPUT transformer with litg2 = 10 yields
surface_temperature = 283.15. -/
theorem dirichlet_litg2_evaluates_to_283_15 :
    ((setup_contracts_modele gcm_outputs_names gcm_inputs_names [] []
        ModelE_CouplingType.DIRICHLET_BC enthOffsetValue).toOption.map
      (fun r => r.ice_input_vt.evaluate
        (fun n => if n = "litg2" then 10 else 0) (fun _ => 0) T_SURFACE)) =
      some (28315 / 100 : ℚ) := by
  simp only [setup_contracts_modele, runRecipesFrom, VarTransformer.allocate,
    VarTransformer.set, VarTransformer.evaluate, unitVal, ice_input_recipe,
    ice_output_recipe, ice_input_fields, ice_output_fields, gcm_outputs_names,
    gcm_inputs_names, resolvesWithUnit, C2K, enthOffsetValue, MASS_FLUX,
    ENTHALPY_FLUX, T_SURFACE, HEAT_FLUX, Except.toOption, List.foldl_cons,
    List.foldl_nil, List.map_cons, List.map_nil, List.sum_cons, List.sum_nil,
    List.contains_cons, List.cons_append, List.nil_append]
  simp
  norm_num

/-- C1: evaluating the OUTPUT transformer built by
`setup_contracts_modele` on a PISM `ice_surface_enth` value of
Enth_p = 10 yields (1 - enth_modele_to_pism) * 10, because both `set`
calls at modele_pism.cpp lines 169-170 accumulate into the coefficient
cell (ice_surface_enth, ice_surface_enth, unit) — the offset multiplies
the input — and this differs from the documented formula
`Enth_e = Enth_p - enth_modele_to_pism` (comment at line 167). -/
theorem ice_surface_enth_offset_multiplicative :
    (((setup_contracts_modele gcm_outputs_names gcm_inputs_names [] []
        ModelE_CouplingType.DIRICHLET_BC enthOffsetValue).toOption.map
      (fun r => r.ice_output_vt.evaluate
        (fun n => if n = "ice_surface_enth" then 10 else 0) (fun _ => 0)
        "ice_surface_enth")) = some ((1 - enthOffsetValue) * 10)) ∧
    (1 - enthOffsetValue) * 10 ≠ 10 - enthOffsetValue := by
  constructor
  · simp only [setup_contracts_modele, runRecipesFrom, VarTransformer.allocate,
      VarTransformer.set, VarTransformer.evaluate, unitVal, ice_input_recipe,
      ice_output_recipe, ice_input_fields, ice_output_fields, gcm_outputs_names,
      gcm_inputs_names, resolvesWithUnit, C2K, enthOffsetValue, MASS_FLUX,
      ENTHALPY_FLUX, T_SURFACE, HEAT_FLUX, Except.toOption, List.foldl_cons,
      List.foldl_nil, List.map_cons, List.map_nil, List.sum_cons, List.sum_nil,
      List.contains_cons, List.cons_append, List.nil_append]
    simp
    norm_num
  · rw [enthOffsetValue]
    norm_num

/-- A key reported present by `accMem` has an entry. -/
theorem exists_mem_of_accMem {K : Type} [DecidableEq K] {m : Accum K} {k : K}
    (h : accMem m k = true) : ∃ v, (k, v) ∈ m := by
  obtain ⟨e, he, hk⟩ := List.any_eq_true.mp h
  have h1 : e.1 = k := of_decide_eq_true hk
  refine ⟨e.2, ?_⟩
  have h2 : (k, e.2) = e := by
    rcases e with ⟨k', v⟩
    cases h1
    rfl
  rw [h2]
  exact he

/-- C3: if a GCM cell `i1` has zero accumulated ice area in the global
`area1_m` accumulator while `area1_m_hc` holds an entry for `(i1, hc)`,
`compute_fhc` still performs the division `ii->second / area1_m[i1]`
with no special-case guard, so the `fhc1h` weight at `(i1, hc)` is the
undefined (NaN-producing) result of a division by zero — no error branch
or substitution occurs inside the engine, which returns normally with
the undefined value in place. -/
theorem compute_fhc_zero_area_undefined :
    ∀ (sheets : List FhcSheet) (i1 hc : Int),
      accLookup (fhcLoop sheets).1 i1 = 0 →
      accMem (fhcLoop sheets).2.1 (i1, hc) = true →
      cooSem (compute_fhc sheets).fhc1h (i1, hc) = none := by
  intro sheets i1 hc hz hm
  obtain ⟨v, hv⟩ := exists_mem_of_accMem hm
  have hdiv : qdiv v (accLookup (fhcLoop sheets).1 i1) = none := by
    rw [hz, qdiv, if_pos rfl]
  have hmem : ((i1, hc), (none : Option ℚ)) ∈
      (fhcLoop sheets).2.1.map
        (fun e => (e.1, qdiv e.2 (accLookup (fhcLoop sheets).1 e.1.1))) := by
    have h0 := List.mem_map_of_mem
      (fun e : (Int × Int) × ℚ =>
        (e.1, qdiv e.2 (accLookup (fhcLoop sheets).1 e.1.1))) hv
    simpa [hdiv] using h0
  show cooSem (List.insertionSort leKey2
      ((fhcLoop sheets).2.1.map
        (fun e => (e.1, qdiv e.2 (accLookup (fhcLoop sheets).1 e.1.1)))))
      (i1, hc) = none
  rw [cooSem_insertionSort]
  exact cooSem_none_of_mem hmem

/-- Witness for C3: on `c3Sheets` the accumulated area at cell 5 is 0,
the (5, 2) key is present, and the resulting fhc weight is the undefined
value. -/
theorem compute_fhc_zero_area_undefined_witness :
    accLookup (fhcLoop c3Sheets).1 5 = 0 ∧
    accMem (fhcLoop c3Sheets).2.1 (5, 2) = true ∧
    cooSem (compute_fhc c3Sheets).fhc1h (5, 2) = none :=
  ⟨by decide, by decide,
   compute_fhc_zero_area_undefined c3Sheets 5 2 (by decide) (by decide)⟩

/-- The `hp_to_hc` loop state equals the appended per-sheet products
paired with the fully accumulated areas. -/
theorem hpToHcLoop_eq (sheets : List HpSheet) :
    hpToHcLoop sheets = (allProducts sheets, allAreaContribs sheets) := by
  have main : ∀ (ss : List HpSheet) (l : List ((Int × Int) × ℚ))
      (m : Accum Int),
      ss.foldl (fun st s =>
        (st.1 ++ spMultiply s.ice_to_hc s.hp_to_ice,
         s.areaContribs.foldl (fun m e => accAdd m e.1 e.2) st.2)) (l, m) =
      (l ++ ss.flatMap (fun s => spMultiply s.ice_to_hc s.hp_to_ice),
       (ss.flatMap (fun s => s.areaContribs)).foldl
         (fun m e => accAdd m e.1 e.2) m) := by
    intro ss
    induction ss with
    | nil =>
        intro l m
        simp
    | cons s ss ih =>
        intro l m
        rw [List.foldl_cons, ih, List.flatMap_cons, List.flatMap_cons,
          List.foldl_append, List.append_assoc]
  rw [hpToHcLoop, main sheets [] []]
  simp [allProducts, allAreaContribs]

/-- C4: `MatrixMaker::hp_to_hc` computes, for each ice sheet in order,
the sparse product `ice_to_hc * hp_to_ice`, appends every per-sheet
product into one combined matrix, divides every entry of the combined
matrix by the fully accumulated per-(cell, height-class) area at its
row, and only after that divide sums duplicate coordinate entries: the
result is exactly `sum_duplicates (divide_by (appended products)
(accumulated areas))`, and its value at each coordinate is the sum of
the individually divided raw entries there. -/
theorem hp_to_hc_append_divide_then_sum :
    ∀ (sheets : List HpSheet) (rc : Int × Int),
      hp_to_hc sheets =
        sum_duplicates
          (divide_by (allProducts sheets) (allAreaContribs sheets)) ∧
      cooSem (hp_to_hc sheets) rc =
        cooSem (divide_by (allProducts sheets) (allAreaContribs sheets)) rc := by
  intro sheets rc
  have h1 : hp_to_hc sheets =
      sum_duplicates
        (divide_by (allProducts sheets) (allAreaContribs sheets)) := by
    rw [hp_to_hc, hpToHcLoop_eq]
  exact ⟨h1, by rw [h1, cooSem_sum_duplicates]⟩

/-- The `accum_areas` pair-fold splits into its two component folds. -/
theorem accum_areas_eq (s : FhcSheet) (la : Accum Int)
    (ahc : Accum (Int × Int)) :
    accum_areas s la ahc =
      (s.contribs.foldl (fun m c => accAdd m c.1 c.2.2) la,
       s.contribs.foldl (fun m c => accAdd m (c.1, c.2.1) c.2.2) ahc) := by
  rw [accum_areas]
  generalize s.contribs = l
  induction l generalizing la ahc with
  | nil => rfl
  | cons c l ih =>
      rw [List.foldl_cons, List.foldl_cons, List.foldl_cons]
      exact ih (accAdd la c.1 c.2.2) (accAdd ahc (c.1, c.2.1) c.2.2)

/-- Halving every contribution halves the per-cell total. -/
theorem totalAreaAt_halve (s : FhcSheet) (k : Int) :
    totalAreaAt (halveSheet s) k = totalAreaAt s k / 2 := by
  simp only [totalAreaAt, halveSheet]
  induction s.contribs with
  | nil => simp
  | cons c l ih =>
      by_cases h : c.1 = k
      · simp [List.filterMap_cons, h, ih, -List.filterMap_map]
        ring
      · simp [List.filterMap_cons, h, ih, -List.filterMap_map]

/-- Halving every contribution halves the per-(cell, height-class)
total. -/
theorem sumHcAt_halve (s : FhcSheet) (khc : Int × Int) :
    sumHcAt (halveSheet s) khc = sumHcAt s khc / 2 := by
  simp only [sumHcAt, halveSheet]
  induction s.contribs with
  | nil => simp
  | cons c l ih =>
      by_cases h : (c.1, c.2.1) = khc
      · simp [List.filterMap_cons, h, ih, -List.filterMap_map]
        ring
      · simp [List.filterMap_cons, h, ih, -List.filterMap_map]

/-- Halving contributions does not change which cells occur. -/
theorem any_halve (s : FhcSheet) (k : Int) :
    (halveSheet s).contribs.any (fun c => c.1 = k) =
      s.contribs.any (fun c => c.1 = k) := by
  simp only [halveSheet, List.any_map]
  congr 1

/-- Halving contributions does not change which (cell, height-class)
pairs occur. -/
theorem anyHc_halve (s : FhcSheet) (khc : Int × Int) :
    (halveSheet s).contribs.any (fun c => (c.1, c.2.1) = khc) =
      s.contribs.any (fun c => (c.1, c.2.1) = khc) := by
  simp only [halveSheet, List.any_map]
  congr 1

/-- A cell with no contribution has zero total area. -/
theorem totalAreaAt_of_any_false {s : FhcSheet} {k : Int}
    (h : s.contribs.any (fun c => c.1 = k) = false) :
    totalAreaAt s k = 0 := by
  have h' : ∀ c ∈ s.contribs,
      (if c.1 = k then some c.2.2 else none) = none := by
    intro c hc
    have hc1 := List.any_eq_false.mp h c hc
    simp only [decide_eq_true_eq] at hc1
    simp [hc1]
  rw [totalAreaAt, List.filterMap_eq_nil.mpr h', List.sum_nil]

/-- Lookup in a sheet's freshly built local per-cell accumulator. -/
theorem lookup_localAcc (s : FhcSheet) (k : Int) :
    accLookup (s.contribs.foldl (fun m c => accAdd m c.1 c.2.2) []) k =
      totalAreaAt s k := by
  rw [accLookup_foldAdd]
  simp [totalAreaAt, accLookup]

/-- Key membership in a sheet's local per-cell accumulator. -/
theorem mem_localAcc (s : FhcSheet) (k : Int) :
    accMem (s.contribs.foldl (fun m c => accAdd m c.1 c.2.2) []) k =
      s.contribs.any (fun c => c.1 = k) := by
  rw [accMem_foldAdd]
  simp [accMem]

/-- The local per-cell accumulator has distinct keys. -/
theorem nodup_localAcc (s : FhcSheet) :
    KeysNodup (s.contribs.foldl (fun m c => accAdd m c.1 c.2.2) []) :=
  keysNodup_foldAdd _ _ _ keysNodup_nil

/-- Lookup in a sheet's per-(cell, height-class) accumulator built from
empty. -/
theorem lookup_localAccHc (s : FhcSheet) (khc : Int × Int) :
    accLookup
      (s.contribs.foldl (fun m c => accAdd m (c.1, c.2.1) c.2.2) []) khc =
      sumHcAt s khc := by
  rw [accLookup_foldAdd]
  simp [sumHcAt, accLookup]

/-- Key membership in a sheet's per-(cell, height-class) accumulator. -/
theorem mem_localAccHc (s : FhcSheet) (khc : Int × Int) :
    accMem
      (s.contribs.foldl (fun m c => accAdd m (c.1, c.2.1) c.2.2) []) khc =
      s.contribs.any (fun c => (c.1, c.2.1) = khc) := by
  rw [accMem_foldAdd]
  simp [accMem]

/-- The per-(cell, height-class) accumulator has distinct keys. -/
theorem nodup_localAccHc (s : FhcSheet) :
    KeysNodup
      (s.contribs.foldl (fun m c => accAdd m (c.1, c.2.1) c.2.2) []) :=
  keysNodup_foldAdd _ _ _ keysNodup_nil

/-- Folding a duplicate-free accumulator's entries into another
accumulator adds its lookups. -/
theorem lookup_globalAcc {A : Accum Int} (hA : KeysNodup A)
    (m : Accum Int) (i : Int) :
    accLookup (A.foldl (fun m e => accAdd m e.1 e.2) m) i =
      accLookup m i + accLookup A i := by
  rw [accLookup_foldAdd, accLookup_eq_sum_of_nodup hA]

/-- C2: splitting one ice sheet's overlap contributions into two
batches with halved areas and feeding them through `compute_fhc` as two
sheets yields the same represented `fgice1` and `fhc1h` vectors as one
pass with the full areas; and the represented `fgice1` value at a cell
is the total ice-covered overlap area summed across all batches,
divided once by the cell's true projected area. -/
theorem compute_fhc_batch_idempotent :
    ∀ (s : FhcSheet) (k : Int) (khc : Int × Int),
      s.cellArea k ≠ 0 →
      cooSem (compute_fhc [halveSheet s, halveSheet s]).fgice1 k =
          cooSem (compute_fhc [s]).fgice1 k ∧
      cooSem (compute_fhc [halveSheet s, halveSheet s]).fhc1h khc =
          cooSem (compute_fhc [s]).fhc1h khc ∧
      cooSem (compute_fhc [s]).fgice1 k =
          some (totalAreaAt s k / s.cellArea k) := by
  intro s k khc hA
  have hAeq := accum_areas_eq s [] []
  -- ===== single-pass fgice1 =====
  have hsingle_fg : cooSem (compute_fhc [s]).fgice1 k =
      some (totalAreaAt s k / s.cellArea k) := by
    show cooSem (List.insertionSort leKey1 (fhcLoop [s]).2.2) k = _
    rw [cooSem_insertionSort]
    show cooSem ((accum_areas s [] []).1.map
        (fun e => (e.1, qdiv e.2 (s.cellArea e.1)))) k = _
    have hproj : (accum_areas s [] []).1 =
        s.contribs.foldl (fun m c => accAdd m c.1 c.2.2) [] := by
      rw [hAeq]
    rw [hproj,
      cooSem_map_acc (nodup_localAcc s) (fun kk v => qdiv v (s.cellArea kk)) k,
      mem_localAcc, lookup_localAcc]
    by_cases hany : s.contribs.any (fun c => c.1 = k) = true
    · rw [if_pos hany, qdiv, if_neg hA]
    · rw [if_neg hany]
      rw [Bool.not_eq_true] at hany
      rw [totalAreaAt_of_any_false hany, zero_div]
  -- ===== batched fgice1 =====
  have hbatch_fg : cooSem (compute_fhc [halveSheet s, halveSheet s]).fgice1 k =
      some (totalAreaAt s k / s.cellArea k) := by
    show cooSem (List.insertionSort leKey1
        (fhcLoop [halveSheet s, halveSheet s]).2.2) k = _
    rw [cooSem_insertionSort]
    show cooSem (((accum_areas (halveSheet s) [] []).1.map
          (fun e => (e.1, qdiv e.2 ((halveSheet s).cellArea e.1)))) ++
        ((accum_areas (halveSheet s) []
            (accum_areas (halveSheet s) [] []).2).1.map
          (fun e => (e.1, qdiv e.2 ((halveSheet s).cellArea e.1))))) k = _
    have hp1 : (accum_areas (halveSheet s) [] []).1 =
        (halveSheet s).contribs.foldl (fun m c => accAdd m c.1 c.2.2) [] := by
      rw [accum_areas_eq]
    have hp2 : (accum_areas (halveSheet s) []
        (accum_areas (halveSheet s) [] []).2).1 =
        (halveSheet s).contribs.foldl (fun m c => accAdd m c.1 c.2.2) [] := by
      rw [accum_areas_eq (halveSheet s) []
        (accum_areas (halveSheet s) [] []).2]
    have hca : (halveSheet s).cellArea = s.cellArea := rfl
    rw [cooSem_append, hp1, hp2, hca]
    have hcomp : cooSem
        (((halveSheet s).contribs.foldl (fun m c => accAdd m c.1 c.2.2) []).map
          (fun e => (e.1, qdiv e.2 (s.cellArea e.1)))) k =
        if s.contribs.any (fun c => c.1 = k) = true then
          qdiv (totalAreaAt s k / 2) (s.cellArea k)
        else some 0 := by
      rw [cooSem_map_acc (nodup_localAcc (halveSheet s))
          (fun kk v => qdiv v (s.cellArea kk)) k,
        mem_localAcc, lookup_localAcc, totalAreaAt_halve, any_halve]
    rw [hcomp]
    by_cases hany : s.contribs.any (fun c => c.1 = k) = true
    · rw [if_pos hany, qdiv, if_neg hA]
      show some (totalAreaAt s k / 2 / s.cellArea k +
        totalAreaAt s k / 2 / s.cellArea k) = _
      rw [Option.some.injEq]
      ring
    · rw [if_neg hany]
      rw [Bool.not_eq_true] at hany
      rw [totalAreaAt_of_any_false hany, zero_div, addO_zero_left]
  -- ===== single-pass fhc1h =====
  have hsingle_fhc : cooSem (compute_fhc [s]).fhc1h khc =
      if s.contribs.any (fun c => (c.1, c.2.1) = khc) = true then
        qdiv (sumHcAt s khc) (totalAreaAt s khc.1)
      else some 0 := by
    show cooSem (List.insertionSort leKey2 ((fhcLoop [s]).2.1.map
        (fun e => (e.1, qdiv e.2 (accLookup (fhcLoop [s]).1 e.1.1))))) khc = _
    rw [cooSem_insertionSort]
    have hG : ∀ i : Int, accLookup (fhcLoop [s]).1 i = totalAreaAt s i := by
      intro i
      show accLookup ((accum_areas s [] []).1.foldl
          (fun m e => accAdd m e.1 e.2) []) i = _
      simp only [accum_areas_eq]
      rw [lookup_globalAcc (nodup_localAcc s), lookup_localAcc]
      simp [accLookup]
    have hH : (fhcLoop [s]).2.1 =
        s.contribs.foldl (fun m c => accAdd m (c.1, c.2.1) c.2.2) [] := by
      show (accum_areas s [] []).2 = _
      rw [hAeq]
    simp only [hG]
    rw [hH,
      cooSem_map_acc (nodup_localAccHc s)
        (fun kk v => qdiv v (totalAreaAt s kk.1)) khc,
      mem_localAccHc, lookup_localAccHc]
  -- ===== batched fhc1h =====
  have hbatch_fhc :
      cooSem (compute_fhc [halveSheet s, halveSheet s]).fhc1h khc =
      if s.contribs.any (fun c => (c.1, c.2.1) = khc) = true then
        qdiv (sumHcAt s khc) (totalAreaAt s khc.1)
      else some 0 := by
    show cooSem (List.insertionSort leKey2
        ((fhcLoop [halveSheet s, halveSheet s]).2.1.map
          (fun e => (e.1, qdiv e.2
            (accLookup (fhcLoop [halveSheet s, halveSheet s]).1 e.1.1))))) khc
        = _
    rw [cooSem_insertionSort]
    have hG2 : ∀ i : Int,
        accLookup (fhcLoop [halveSheet s, halveSheet s]).1 i =
          totalAreaAt s i := by
      intro i
      show accLookup ((accum_areas (halveSheet s) []
          (accum_areas (halveSheet s) [] []).2).1.foldl
            (fun m e => accAdd m e.1 e.2)
            ((accum_areas (halveSheet s) [] []).1.foldl
              (fun m e => accAdd m e.1 e.2) [])) i = _
      simp only [accum_areas_eq]
      rw [lookup_globalAcc (nodup_localAcc (halveSheet s)),
        lookup_globalAcc (nodup_localAcc (halveSheet s)),
        lookup_localAcc, totalAreaAt_halve]
      simp [accLookup]
    have hHb : (fhcLoop [halveSheet s, halveSheet s]).2.1 =
        (halveSheet s).contribs.foldl
          (fun m c => accAdd m (c.1, c.2.1) c.2.2)
          ((halveSheet s).contribs.foldl
            (fun m c => accAdd m (c.1, c.2.1) c.2.2) []) := by
      show (accum_areas (halveSheet s) []
          (accum_areas (halveSheet s) [] []).2).2 = _
      simp only [accum_areas_eq]
    have hnodup2 : KeysNodup ((halveSheet s).contribs.foldl
        (fun m c => accAdd m (c.1, c.2.1) c.2.2)
        ((halveSheet s).contribs.foldl
          (fun m c => accAdd m (c.1, c.2.1) c.2.2) [])) :=
      keysNodup_foldAdd _ _ _ (keysNodup_foldAdd _ _ _ keysNodup_nil)
    have hmem2 : accMem ((halveSheet s).contribs.foldl
        (fun m c => accAdd m (c.1, c.2.1) c.2.2)
        ((halveSheet s).contribs.foldl
          (fun m c => accAdd m (c.1, c.2.1) c.2.2) [])) khc =
        s.contribs.any (fun c => (c.1, c.2.1) = khc) := by
      rw [accMem_foldAdd, accMem_foldAdd, anyHc_halve]
      simp [accMem, Bool.or_self]
    have hlook2 : accLookup ((halveSheet s).contribs.foldl
        (fun m c => accAdd m (c.1, c.2.1) c.2.2)
        ((halveSheet s).contribs.foldl
          (fun m c => accAdd m (c.1, c.2.1) c.2.2) [])) khc =
        sumHcAt s khc := by
      rw [accLookup_foldAdd, accLookup_foldAdd]
      have hs' : ((halveSheet s).contribs.filterMap
          (fun c => if (c.1, c.2.1) = khc then some c.2.2 else none)).sum =
          sumHcAt s khc / 2 := sumHcAt_halve s khc
      rw [hs']
      simp [accLookup]
    simp only [hG2]
    rw [hHb,
      cooSem_map_acc hnodup2 (fun kk v => qdiv v (totalAreaAt s kk.1)) khc,
      hmem2, hlook2]
  exact ⟨hbatch_fg.trans hsingle_fg.symm,
    hbatch_fhc.trans hsingle_fhc.symm, hsingle_fg⟩

/-- Witness for C2: the concrete sheet `c2Sheet` (cell area 10, areas
6 + 4 on cell 0 and 5 on cell 1) satisfies the batching identity and
`fgice1` at cell 0 equals (6 + 4) / 10. -/
theorem compute_fhc_batch_idempotent_witness :
    c2Sheet.cellArea 0 ≠ 0 ∧
    (cooSem (compute_fhc [halveSheet c2Sheet, halveSheet c2Sheet]).fgice1 0 =
        cooSem (compute_fhc [c2Sheet]).fgice1 0 ∧
      cooSem (compute_fhc [halveSheet c2Sheet, halveSheet c2Sheet]).fhc1h
          (0, 1) =
        cooSem (compute_fhc [c2Sheet]).fhc1h (0, 1) ∧
      cooSem (compute_fhc [c2Sheet]).fgice1 0 =
        some (totalAreaAt c2Sheet 0 / c2Sheet.cellArea 0)) :=
  ⟨by norm_num [c2Sheet],
   compute_fhc_batch_idempotent c2Sheet 0 (0, 1) (by norm_num [c2Sheet])⟩

end Icebin
